import Mathlib

/-!
Verification of the pb-money fixed-point money arithmetic library.

The definitions below mirror the Go source file `money.go` of the
repository.  A money value is a record of an `int64` units field, an
`int32` nanos field and a currency-code string.  Go's 64-bit and 32-bit
machine arithmetic is modelled on `Int` with explicit two's-complement
wrap-around (`wrap64`, `wrap32`); Go's `/` and `%` truncate towards
zero, which is `Int.tdiv` and `Int.tmod`.
-/

namespace PbMoney

/-- Two's-complement wrap-around of 64-bit signed machine arithmetic:
the unique value congruent to `x` modulo `2^64` lying in
`[-2^63, 2^63)`. -/
def wrap64 (x : Int) : Int :=
  (x + 9223372036854775808) % 18446744073709551616 - 9223372036854775808

/-- Two's-complement wrap-around of 32-bit signed machine arithmetic. -/
def wrap32 (x : Int) : Int :=
  (x + 2147483648) % 4294967296 - 2147483648

/-- `x` is representable as a Go `int64`. -/
def In64 (x : Int) : Prop :=
  -9223372036854775808 ≤ x ∧ x < 9223372036854775808

/-- `x` is representable as a Go `int32`. -/
def In32 (x : Int) : Prop :=
  -2147483648 ≤ x ∧ x < 2147483648

instance (x : Int) : Decidable (In64 x) := by unfold In64; infer_instance

instance (x : Int) : Decidable (In32 x) := by unfold In32; infer_instance

/-- The external money value type (`pb.Money`): `units` is an `int64`,
`nanos` an `int32`, `currencyCode` a string. -/
structure Money where
  units : Int
  nanos : Int
  currencyCode : String
deriving DecidableEq

def nanosMin : Int := -999999999

def nanosMax : Int := 999999999

def nanosMod : Int := 1000000000

/-- `signMatches` from `money.go`:
`m.GetNanos() == 0 || m.GetUnits() == 0 || (m.GetNanos() < 0) == (m.GetUnits() < 0)`. -/
def signMatches (m : Money) : Bool :=
  m.nanos == 0 || m.units == 0 || (decide (m.nanos < 0) == decide (m.units < 0))

/-- `validNanos` from `money.go`: `nanosMin <= nanos && nanos <= nanosMax`. -/
def validNanos (nanos : Int) : Bool :=
  decide (nanosMin ≤ nanos) && decide (nanos ≤ nanosMax)

/-- `IsValid` from `money.go`. -/
def IsValid (m : Money) : Bool :=
  signMatches m && validNanos m.nanos

/-- `IsZero` from `money.go`. -/
def IsZero (m : Money) : Bool :=
  m.units == 0 && m.nanos == 0

/-- `IsPositive` from `money.go`.  Go's `&&` binds tighter than `||`,
so the expression groups as
`(IsValid(m) && m.GetUnits() > 0) || (m.GetUnits() == 0 && m.GetNanos() > 0)`. -/
def IsPositive (m : Money) : Bool :=
  IsValid m && decide (m.units > 0) || (m.units == 0 && decide (m.nanos > 0))

/-- `IsNegative` from `money.go`, same grouping as `IsPositive`. -/
def IsNegative (m : Money) : Bool :=
  IsValid m && decide (m.units < 0) || (m.units == 0 && decide (m.nanos < 0))

/-- `AreSameCurrency` from `money.go`. -/
def AreSameCurrency (l r : Money) : Bool :=
  l.currencyCode == r.currencyCode && l.currencyCode != ""

/-- `AreEquals` from `money.go`. -/
def AreEquals (l r : Money) : Bool :=
  l.currencyCode == r.currencyCode && l.units == r.units && l.nanos == r.nanos

/-- `Negate` from `money.go`.  Go's unary minus on `int64`/`int32`
wraps around at the minimum value. -/
def Negate (m : Money) : Money :=
  { units := wrap64 (-m.units), nanos := wrap32 (-m.nanos), currencyCode := m.currencyCode }

/-- The two error values `ErrInvalidValue` and `ErrMismatchingCurrency`. -/
inductive SumError where
  | invalidValue
  | mismatchingCurrency
deriving DecidableEq

deriving instance DecidableEq for Except

/-- The arithmetic body of `Sum` from `money.go`, producing the raw
`(units, nanos)` pair of the result.  The two additions of `units`
(`int64`) and `nanos` (`int32`) wrap; the carry branch uses Go's
truncating `/` and `%` by `nanosMod`; the borrow branch adds or
subtracts `nanosMod` in `int32` arithmetic. -/
def sumRaw (l r : Money) : Int × Int :=
  let units := wrap64 (l.units + r.units)
  let nanos := wrap32 (l.nanos + r.nanos)
  if (units = 0 ∧ nanos = 0) ∨ (units > 0 ∧ nanos ≥ 0) ∨ (units < 0 ∧ nanos ≤ 0) then
    (wrap64 (units + wrap32 (nanos.tdiv nanosMod)), wrap32 (nanos.tmod nanosMod))
  else if units > 0 then
    (wrap64 (units - 1), wrap32 (nanos + nanosMod))
  else
    (wrap64 (units + 1), wrap32 (nanos - nanosMod))

/-- `Sum` from `money.go`: validity check, currency check, then the
carry/borrow arithmetic of `sumRaw`. -/
def Sum (l r : Money) : Except SumError Money :=
  if !IsValid l || !IsValid r then
    .error .invalidValue
  else if l.currencyCode != r.currencyCode then
    .error .mismatchingCurrency
  else
    .ok { units := (sumRaw l r).1, nanos := (sumRaw l r).2, currencyCode := l.currencyCode }

/-- The `for n > 1` loop shared by `MultiplyInt` and `DivideInt`:
`k` remaining additions of `m` onto the accumulator.  `Must` panics
when `Sum` reports an error; the panic is modelled as `none`. -/
def iterSum (acc m : Money) : Nat → Option Money
  | 0 => some acc
  | k + 1 =>
    match Sum acc m with
    | .ok s => iterSum s m k
    | .error _ => none

/-- `MultiplyInt` from `money.go`: accumulator starts at `m`, the loop
body runs `n - 1` times (zero times when `n ≤ 1`). -/
def MultiplyInt (m : Money) (n : Nat) : Option Money :=
  iterSum m m (n - 1)

/-- `DivideInt` from `money.go`: accumulator starts at `Negate m`, the
loop body runs `n - 1` times (zero times when `n ≤ 1`). -/
def DivideInt (m : Money) (n : Nat) : Option Money :=
  iterSum (Negate m) m (n - 1)

/-- `unitsAndNanoPartToMicros` from `money.go`:
`units*100 + int64(nanos/10000000)`, in machine arithmetic. -/
def unitsAndNanoPartToMicros (units nanos : Int) : Int :=
  wrap64 (wrap64 (units * 100) + wrap32 (nanos.tdiv 10000000))

/-- `microsToUnitsAndNanoPart` from `money.go`:
`(micros / 10000, int32(micros%10000) * 100000)`; the conversion to
`int32` and the `int32` multiplication both wrap. -/
def microsToUnitsAndNanoPart (micros : Int) : Int × Int :=
  (micros.tdiv 10000, wrap32 (wrap32 (micros.tmod 10000) * 100000))

/-- `toGoogleMoney` from `money.go`. -/
def toGoogleMoney (valueMicros : Int) (currencyCode : String) : Money :=
  { units := (microsToUnitsAndNanoPart valueMicros).1,
    nanos := (microsToUnitsAndNanoPart valueMicros).2,
    currencyCode := currencyCode }

/-- `MultipleFast` from `money.go`. -/
def MultipleFast (l r : Money) : Money :=
  toGoogleMoney
    (wrap64 (unitsAndNanoPartToMicros l.units l.nanos * unitsAndNanoPartToMicros r.units r.nanos))
    l.currencyCode

/-- `DivideFast` from `money.go`.  Go's `/` on a zero divisor is a
runtime panic (there is no error return in the signature); the panic is
modelled as `none`.  `MinInt64 / -1` wraps in Go, hence the `wrap64`. -/
def DivideFast (l r : Money) : Option Money :=
  let lr := unitsAndNanoPartToMicros l.units l.nanos
  let rr := unitsAndNanoPartToMicros r.units r.nanos
  if rr = 0 then none
  else some (toGoogleMoney (wrap64 (lr.tdiv rr)) l.currencyCode)

/-- `DivideFastInt` from `money.go`; division by the zero scalar is a
runtime panic, modelled as `none`. -/
def DivideFastInt (l : Money) (r : Int) : Option Money :=
  let lr := unitsAndNanoPartToMicros l.units l.nanos
  if r = 0 then none
  else some (toGoogleMoney (wrap64 (lr.tdiv r)) l.currencyCode)

/-- `MultipleFastInt` from `money.go`. -/
def MultipleFastInt (l : Money) (r : Int) : Money :=
  toGoogleMoney (wrap64 (unitsAndNanoPartToMicros l.units l.nanos * r)) l.currencyCode

/-- `strconv.Itoa`: decimal string of an integer, `-` sign for
negatives. -/
def Itoa (n : Int) : String :=
  toString n

/-- `strings.TrimRight(s, "0")`: remove all trailing `0` characters. -/
def trimRightZeros (s : String) : String :=
  String.mk (s.data.reverse.dropWhile (fun c => c == '0')).reverse

/-- `ToStringDollars` from `money.go`.  The final
`fmt.Sprintf("%d.%d", l.GetUnits(), nanos)` applies the `%d` verb to
`nanos`, which at that point is a *string*; Go's `fmt` renders a
wrong-type argument as the bad-verb marker `%!d(string=<value>)`. -/
def ToStringDollars (l : Money) : String :=
  let nanos := Itoa l.nanos
  let nanos := trimRightZeros nanos
  let nanos := if nanos = "" then "00" else if nanos.length = 1 then nanos ++ "0" else nanos
  Itoa l.units ++ "." ++ ("%!d(string=" ++ nanos ++ ")")

/-- `ToInt` from `money.go`. -/
def ToInt (l : Money) : Int :=
  unitsAndNanoPartToMicros l.units l.nanos

/-- The exact value of a money record in nanos:
`units * 10^9 + nanos`.  The represented real value is this divided by
`10^9`. -/
def toNanos (m : Money) : Int :=
  m.units * 1000000000 + m.nanos

/-- The fast-path encode step in the spec's words (§4.5):
`scaled = units*100 + nanos/10_000_000` over unbounded integers, with
truncating integer division.  Stated for comparison with the source
definition `unitsAndNanoPartToMicros`. -/
def scaledOfSpec (units nanos : Int) : Int :=
  units * 100 + nanos.tdiv 10000000

/-- The fast-path decode step in the spec's words (§4.5):
`units = scaled/10_000, nanos = (scaled mod 10_000)*100_000` over
unbounded integers, with truncating division and remainder.  Stated for
comparison with the source definition `microsToUnitsAndNanoPart`. -/
def unscaledOfSpec (scaled : Int) : Int × Int :=
  (scaled.tdiv 10000, scaled.tmod 10000 * 100000)

/-! ### Arithmetic helper lemmas -/

theorem wrap64_eq_self {x : Int} (h1 : -9223372036854775808 ≤ x)
    (h2 : x < 9223372036854775808) : wrap64 x = x := by
  unfold wrap64; omega

theorem wrap32_eq_self {x : Int} (h1 : -2147483648 ≤ x)
    (h2 : x < 2147483648) : wrap32 x = x := by
  unfold wrap32; omega

theorem wrap64_absorb_left (a b : Int) : wrap64 (wrap64 a + b) = wrap64 (a + b) := by
  unfold wrap64; omega

theorem tmod_neg_left (a b : Int) : Int.tmod (-a) b = -Int.tmod a b := by
  rw [Int.tmod_def, Int.tmod_def, Int.neg_tdiv]; ring

/-- Truncating division and remainder, packaged for `omega`: the
division identity, the remainder bounds, and the sign of the remainder
(which follows the dividend). -/
theorem tdivmod_facts (a b : Int) (hb : 0 < b) :
    b * a.tdiv b + a.tmod b = a ∧ -b < a.tmod b ∧ a.tmod b < b ∧
      (0 ≤ a → 0 ≤ a.tmod b) ∧ (a ≤ 0 → a.tmod b ≤ 0) := by
  refine ⟨Int.tdiv_add_tmod a b, ?_, ?_, fun ha => Int.tmod_nonneg b ha, ?_⟩
  · rcases le_or_lt 0 a with ha | ha
    · have h1 := Int.emod_nonneg a (by omega : b ≠ 0)
      rw [Int.tmod_eq_emod ha hb.le]; omega
    · have h2 := Int.emod_lt_of_pos (-a) hb
      have h3 : Int.tmod a b = -Int.tmod (-a) b := by rw [tmod_neg_left, neg_neg]
      rw [h3, Int.tmod_eq_emod (by omega) hb.le]; omega
  · rcases le_or_lt 0 a with ha | ha
    · have h2 := Int.emod_lt_of_pos a hb
      rw [Int.tmod_eq_emod ha hb.le]; omega
    · have h1 := Int.emod_nonneg (-a) (by omega : b ≠ 0)
      have h3 : Int.tmod a b = -Int.tmod (-a) b := by rw [tmod_neg_left, neg_neg]
      rw [h3, Int.tmod_eq_emod (by omega) hb.le]; omega
  · intro ha
    have h1 := Int.emod_nonneg (-a) (by omega : b ≠ 0)
    have h3 : Int.tmod a b = -Int.tmod (-a) b := by rw [tmod_neg_left, neg_neg]
    rw [h3, Int.tmod_eq_emod (by omega) hb.le]; omega

/-- `IsValid` unfolded to a proposition. -/
theorem isValid_iff {m : Money} : IsValid m = true ↔
    ((m.nanos = 0 ∨ m.units = 0 ∨ (m.nanos < 0 ↔ m.units < 0)) ∧
      -999999999 ≤ m.nanos ∧ m.nanos ≤ 999999999) := by
  simp [IsValid, signMatches, validNanos, nanosMin, nanosMax, decide_eq_decide, or_assoc]

/-! ### Behaviour of `Sum` under the precondition checks -/

theorem sum_invalid {l r : Money} (h : IsValid l = false ∨ IsValid r = false) :
    Sum l r = .error .invalidValue := by
  unfold Sum
  rcases h with h | h <;> rw [h] <;> simp

theorem sum_mismatch {l r : Money} (hl : IsValid l = true) (hr : IsValid r = true)
    (hcc : l.currencyCode ≠ r.currencyCode) :
    Sum l r = .error .mismatchingCurrency := by
  unfold Sum; rw [hl, hr]; simp [hcc]

theorem sum_valid_eq {l r : Money} (hl : IsValid l = true) (hr : IsValid r = true)
    (hcc : l.currencyCode = r.currencyCode) :
    Sum l r = .ok ⟨(sumRaw l r).1, (sumRaw l r).2, l.currencyCode⟩ := by
  unfold Sum; rw [hl, hr]; simp [hcc]

theorem sumRaw_comm (l r : Money) : sumRaw l r = sumRaw r l := by
  simp only [sumRaw, Int.add_comm l.units r.units, Int.add_comm l.nanos r.nanos]

theorem sum_comm_aux (l r : Money) : Sum l r = Sum r l := by
  unfold Sum
  by_cases hcc : l.currencyCode = r.currencyCode
  · cases hl : IsValid l <;> cases hr : IsValid r <;> simp [hcc, sumRaw_comm l r]
  · have hcc' : ¬(r.currencyCode = l.currencyCode) := fun h => hcc h.symm
    cases hl : IsValid l <;> cases hr : IsValid r <;> simp [hcc, hcc']

/-- `sumRaw` on a non-negative left operand and a strictly-positive
right operand: the carry branch is taken, no machine overflow occurs,
the result components are in canonical range and the exact value is
preserved. -/
theorem sumRaw_pos {l r : Money}
    (hlu : 0 ≤ l.units) (hln : 0 ≤ l.nanos) (hln2 : l.nanos ≤ 999999999)
    (hru : 1 ≤ r.units) (hrn : 0 ≤ r.nanos) (hrn2 : r.nanos ≤ 999999999)
    (hub : l.units + r.units + 1 < 9223372036854775808) :
    1 ≤ (sumRaw l r).1 ∧ (sumRaw l r).1 ≤ l.units + r.units + 1 ∧
      0 ≤ (sumRaw l r).2 ∧ (sumRaw l r).2 ≤ 999999999 ∧
      (sumRaw l r).1 * 1000000000 + (sumRaw l r).2 = toNanos l + toNanos r := by
  obtain ⟨hdm, hm1, hm2, hm3, hm4⟩ := tdivmod_facts (l.nanos + r.nanos) 1000000000 (by norm_num)
  have hU : wrap64 (l.units + r.units) = l.units + r.units :=
    wrap64_eq_self (by omega) (by omega)
  have hN : wrap32 (l.nanos + r.nanos) = l.nanos + r.nanos :=
    wrap32_eq_self (by omega) (by omega)
  have hq : wrap32 ((l.nanos + r.nanos).tdiv 1000000000) = (l.nanos + r.nanos).tdiv 1000000000 :=
    wrap32_eq_self (by omega) (by omega)
  have hr' : wrap32 ((l.nanos + r.nanos).tmod 1000000000) = (l.nanos + r.nanos).tmod 1000000000 :=
    wrap32_eq_self (by omega) (by omega)
  have hUq : wrap64 (l.units + r.units + (l.nanos + r.nanos).tdiv 1000000000)
      = l.units + r.units + (l.nanos + r.nanos).tdiv 1000000000 :=
    wrap64_eq_self (by omega) (by omega)
  simp only [sumRaw, nanosMod, hU, hN, hq, hr', hUq]
  rw [if_pos (Or.inr (Or.inl ⟨by omega, by omega⟩))]
  dsimp only
  simp only [toNanos]
  refine ⟨by omega, by omega, by omega, by omega, by omega⟩

theorem wrap64_zero : wrap64 0 = 0 := by decide

theorem wrap32_zero : wrap32 0 = 0 := by decide

/-- `Negate` of a valid value whose units field is not `MinInt64` is
the exact componentwise negation, and is itself valid. -/
theorem negate_valid {m : Money} (hval : IsValid m = true) (h64 : In64 m.units)
    (hmin : m.units ≠ -9223372036854775808) :
    IsValid (Negate m) = true ∧ (Negate m).units = -m.units ∧
      (Negate m).nanos = -m.nanos ∧ (Negate m).currencyCode = m.currencyCode := by
  obtain ⟨hsign, hn1, hn2⟩ := isValid_iff.mp hval
  obtain ⟨h64a, h64b⟩ := h64
  have hu : wrap64 (-m.units) = -m.units := wrap64_eq_self (by omega) (by omega)
  have hn : wrap32 (-m.nanos) = -m.nanos := wrap32_eq_self (by omega) (by omega)
  refine ⟨?_, by simp [Negate, hu], by simp [Negate, hn], by simp [Negate]⟩
  rw [isValid_iff]
  simp only [Negate, hu, hn]
  omega

/-- Adding a positive-valued `m` back onto its own negation yields the
exact zero value with `m`'s currency. -/
theorem sum_negate_left (m : Money) (hval : IsValid m = true) (h64 : In64 m.units)
    (hmin : m.units ≠ -9223372036854775808) :
    Sum (Negate m) m = .ok ⟨0, 0, m.currencyCode⟩ := by
  obtain ⟨hnval, hnu, hnn, hncc⟩ := negate_valid hval h64 hmin
  rw [sum_valid_eq hnval hval (by rw [hncc])]
  have hU : (Negate m).units + m.units = 0 := by rw [hnu]; ring
  have hN : (Negate m).nanos + m.nanos = 0 := by rw [hnn]; ring
  have hraw : sumRaw (Negate m) m = (0, 0) := by
    simp [sumRaw, hU, hN, wrap64_zero, wrap32_zero, nanosMod]
  simp [hraw, hncc]

/-- Unrolling of the repeated-addition loop on a strictly-positive
`m` and a canonical non-negative accumulator: every intermediate
`Sum` stays on the carry branch, the loop never panics, and the final
value is `acc + k·m` exactly. -/
theorem iterSum_pos (m : Money) (hmval : IsValid m = true) (hmu : 1 ≤ m.units)
    (hmn : 0 ≤ m.nanos) :
    ∀ (k : Nat) (acc : Money), IsValid acc = true → acc.currencyCode = m.currencyCode →
      0 ≤ acc.units → 0 ≤ acc.nanos →
      acc.units + (k : Int) * (m.units + 1) + 1 < 9223372036854775808 →
      ∃ res, iterSum acc m k = some res ∧
        toNanos res = toNanos acc + (k : Int) * toNanos m := by
  intro k
  induction k with
  | zero =>
    intro acc _ _ _ _ _
    exact ⟨acc, rfl, by simp⟩
  | succ k ih =>
    intro acc haccval hacc_cc haccu haccn hbound
    obtain ⟨hsign, hn1, hn2⟩ := isValid_iff.mp haccval
    obtain ⟨hmsign, hmn1, hmn2⟩ := isValid_iff.mp hmval
    have hkm : (0:Int) ≤ (k : Int) * (m.units + 1) :=
      mul_nonneg (Int.natCast_nonneg k) (by omega)
    have hexp : ((k:Int) + 1) * (m.units + 1) = (k:Int) * (m.units + 1) + (m.units + 1) := by
      ring
    have hcast : ((k + 1 : Nat) : Int) = (k : Int) + 1 := by push_cast; ring
    rw [hcast, hexp] at hbound
    have hstep : acc.units + m.units + 1 < 9223372036854775808 := by omega
    obtain ⟨r1, r2, r3, r4, r5⟩ := sumRaw_pos haccu haccn (by omega) hmu hmn (by omega) hstep
    have hsum : Sum acc m = .ok ⟨(sumRaw acc m).1, (sumRaw acc m).2, acc.currencyCode⟩ :=
      sum_valid_eq haccval hmval hacc_cc
    have hsval : IsValid (⟨(sumRaw acc m).1, (sumRaw acc m).2, acc.currencyCode⟩ : Money)
        = true := by
      rw [isValid_iff]; dsimp only; omega
    obtain ⟨res, hres, hresval⟩ := ih ⟨(sumRaw acc m).1, (sumRaw acc m).2, acc.currencyCode⟩
      hsval hacc_cc (by dsimp only; omega) (by dsimp only; omega) (by dsimp only; omega)
    refine ⟨res, ?_, ?_⟩
    · show iterSum acc m (k + 1) = some res
      simp only [iterSum]
      rw [hsum]
      exact hres
    · rw [hresval, hcast]
      simp only [toNanos] at r5 ⊢
      linarith [r5]

/-! ### Claim theorems -/

/-- Claim C1.  The claim states that `Sum` of two valid same-currency
values always yields an `IsValid` result.  The code violates this: for
the valid same-currency inputs `{1, 1}` and `{-1, 0}` the raw sums are
`units = 0`, `nanos = 1`, which the branch condition sends into the
mixed-sign borrow branch, producing `{1, -999999999}` — a value whose
units and nanos disagree in sign, so `IsValid` is `false`. -/
theorem C1_sum_valid_inputs_invalid_result :
    IsValid ⟨1, 1, ""⟩ = true ∧ IsValid ⟨-1, 0, ""⟩ = true ∧
    Sum ⟨1, 1, ""⟩ ⟨-1, 0, ""⟩ = .ok ⟨1, -999999999, ""⟩ ∧
    IsValid ⟨1, -999999999, ""⟩ = false := by
  decide

/-- Claim C2: `Sum` returns the invalid-value error exactly when one of
the operands fails `IsValid`; otherwise it returns the
mismatching-currency error exactly when the currency-code strings are
unequal (two empty codes pass); otherwise it succeeds.  In particular
`Sum({0,0,"XXX"}, {0,0,""})` fails with the mismatching-currency
error. -/
theorem C2_sum_error_conditions (l r : Money) :
    (Sum l r = .error .invalidValue ↔ ¬(IsValid l = true ∧ IsValid r = true)) ∧
    (IsValid l = true → IsValid r = true →
      (Sum l r = .error .mismatchingCurrency ↔ l.currencyCode ≠ r.currencyCode)) ∧
    (IsValid l = true → IsValid r = true → l.currencyCode = r.currencyCode →
      ∃ s, Sum l r = .ok s) ∧
    Sum ⟨0, 0, "XXX"⟩ ⟨0, 0, ""⟩ = .error .mismatchingCurrency := by
  refine ⟨⟨fun h hboth => ?_, fun h => ?_⟩, fun hl hr => ⟨fun h => ?_, fun h => ?_⟩,
    fun hl hr hcc => ⟨_, sum_valid_eq hl hr hcc⟩, by decide⟩
  · obtain ⟨hl, hr⟩ := hboth
    by_cases hcc : l.currencyCode = r.currencyCode
    · rw [sum_valid_eq hl hr hcc] at h; exact absurd h (by simp)
    · rw [sum_mismatch hl hr hcc] at h; simp at h
  · apply sum_invalid
    by_cases hl : IsValid l = true
    · exact Or.inr (by simpa using fun hr => h ⟨hl, hr⟩)
    · exact Or.inl (by simpa using hl)
  · by_cases hcc : l.currencyCode = r.currencyCode
    · rw [sum_valid_eq hl hr hcc] at h; exact absurd h (by simp)
    · exact hcc
  · exact sum_mismatch hl hr h

/-- Witness for C2 at concrete inputs. -/
theorem C2_sum_error_conditions_witness :
    Sum ⟨0, 0, "XXX"⟩ ⟨0, 0, ""⟩ = .error .mismatchingCurrency :=
  (C2_sum_error_conditions ⟨0, 0, "XXX"⟩ ⟨0, 0, ""⟩).2.2.2

/-- Claim C3.  The claim states `ToStringDollars({5, 910000000})`
renders as `"5.91"` and `ToStringDollars({5, 0})` as `"5.00"`.  The
fraction string is computed as the claim describes, but the final
`fmt.Sprintf("%d.%d", ...)` applies the integer verb `%d` to that
string, so Go's fmt emits the bad-verb marker `%!d(string=..)` instead
of the digits. -/
theorem C3_to_string_dollars_eval :
    ToStringDollars ⟨5, 910000000, ""⟩ = "5.%!d(string=91)" ∧
    ToStringDollars ⟨5, 0, ""⟩ = "5.%!d(string=00)" := by
  decide

/-- Claim C5.  The claim states `IsPositive`/`IsNegative` are true only
on valid values.  Go's `&&` binds tighter than `||`, so the validity
conjunct only guards the `units > 0` disjunct: the invalid value
`{0, 1000000000}` (nanos out of range) is reported positive, and
`{0, -1000000000}` is reported negative. -/
theorem C5_sign_predicates_eval :
    IsPositive ⟨0, 1000000000, ""⟩ = true ∧ IsValid ⟨0, 1000000000, ""⟩ = false ∧
    IsNegative ⟨0, -1000000000, ""⟩ = true ∧ IsValid ⟨0, -1000000000, ""⟩ = false := by
  decide

/-- Claim C6.  The claim states the fast-path divisions report a zero
divisor as an explicit error.  The Go functions have no error result at
all; a zero divisor reaches the native `/` and panics.  The panic is
modelled as `none`: both functions crash rather than report.  The third
conjunct shows a whole-money divisor whose scaled encoding is zero
(`{0, 9999999}`) also faults. -/
theorem C6_divide_fast_zero_divisor_eval :
    DivideFastInt ⟨1, 0, ""⟩ 0 = none ∧
    DivideFast ⟨1, 0, ""⟩ ⟨0, 0, ""⟩ = none ∧
    DivideFast ⟨1, 0, ""⟩ ⟨0, 9999999, ""⟩ = none := by
  decide

/-- Claim C8: `Sum` is commutative — same result value and same error
outcome for `Sum(a,b)` and `Sum(b,a)`, for all inputs. -/
theorem C8_sum_comm (a b : Money) : Sum a b = Sum b a :=
  sum_comm_aux a b

/-- Claim C10: when the count `n` is at most 1 the repeated-addition
loop body never runs, so `MultiplyInt` returns `m` itself and
`DivideInt` returns `Negate m`. -/
theorem C10_loop_skipped (m : Money) (n : Nat) (h : n ≤ 1) :
    MultiplyInt m n = some m ∧ DivideInt m n = some (Negate m) := by
  have h0 : n - 1 = 0 := by omega
  unfold MultiplyInt DivideInt
  rw [h0]
  exact ⟨rfl, rfl⟩

/-- Witness for C10 at `n = 0`: the result is `m` (not a zero value)
and `Negate m` respectively. -/
theorem C10_loop_skipped_witness :
    (0 : Nat) ≤ 1 ∧ (MultiplyInt ⟨7, 5, "CAD"⟩ 0 = some ⟨7, 5, "CAD"⟩ ∧
      DivideInt ⟨7, 5, "CAD"⟩ 0 = some (Negate ⟨7, 5, "CAD"⟩)) :=
  ⟨by decide, C10_loop_skipped ⟨7, 5, "CAD"⟩ 0 (by decide)⟩

/-- Counterexample to claim C4: the claim says the value computed by
`DivideInt(m, n)` is `(1-n)` times the value of `m`.  For `m = {1, 0}`
and `n = 3` the code returns `{1, 0}` — one times `m` (that is,
`(n-2)` times), not `(1-3) = -2` times. -/
theorem C4_counterexample :
    DivideInt ⟨1, 0, ""⟩ 3 = some ⟨1, 0, ""⟩ ∧
    toNanos ⟨1, 0, ""⟩ ≠ ((1 : Int) - 3) * toNanos ⟨1, 0, ""⟩ := by
  decide

/-- Counterexample to claim C9: the claim says `Sum(a, Negate(a))`
succeeds and returns zero for every valid `a`.  For the valid value
`a = {-2^63, -1, "USD"}`, Go's negation of `units` wraps back to
`-2^63`, so `Negate a = {-2^63, 1, "USD"}` is invalid and `Sum`
returns the invalid-value error instead. -/
theorem C9_counterexample :
    IsValid ⟨-9223372036854775808, -1, "USD"⟩ = true ∧
    Sum ⟨-9223372036854775808, -1, "USD"⟩ (Negate ⟨-9223372036854775808, -1, "USD"⟩) =
      .error .invalidValue := by
  decide

/-- Claim C9, amended: for every valid `a` whose `int64` units field is
not `MinInt64`, `Sum(a, Negate(a))` succeeds and returns the zero value
with `a`'s currency code preserved. -/
theorem C9_sum_negate_amended (a : Money) (hval : IsValid a = true) (h64 : In64 a.units)
    (hmin : a.units ≠ -9223372036854775808) :
    Sum a (Negate a) = .ok ⟨0, 0, a.currencyCode⟩ := by
  rw [sum_comm_aux]
  exact sum_negate_left a hval h64 hmin

/-- Witness for the amended C9 at `a = {3, 500000000, "USD"}`. -/
theorem C9_sum_negate_amended_witness :
    IsValid ⟨3, 500000000, "USD"⟩ = true ∧ In64 (3 : Int) ∧
      (3 : Int) ≠ -9223372036854775808 ∧
      Sum ⟨3, 500000000, "USD"⟩ (Negate ⟨3, 500000000, "USD"⟩) = .ok ⟨0, 0, "USD"⟩ :=
  ⟨by decide, by decide, by decide,
    C9_sum_negate_amended ⟨3, 500000000, "USD"⟩ (by decide) (by decide) (by decide)⟩

/-- Claim C4, amended: `DivideInt(m, n)` starts its accumulator from
`Negate(m)` and adds `m` while the count exceeds 1, so for `n ≥ 1` the
value it computes is `(n-2)` times the value of `m` — not `(1-n)`
times, and not `m/n`.  Stated for positive-valued `m` small enough
that no intermediate addition overflows or strays into the broken
zero-units branch of `Sum` (see C1). -/
theorem C4_divide_int_amended (m : Money) (n : Nat) (hval : IsValid m = true)
    (hu : 1 ≤ m.units) (hn : 0 ≤ m.nanos) (h1 : 1 ≤ n)
    (hub : (n : Int) * (m.units + 1) + 1 < 9223372036854775808) :
    ∃ res, DivideInt m n = some res ∧ toNanos res = ((n : Int) - 2) * toNanos m := by
  obtain ⟨hsign, hn1, hn2⟩ := isValid_iff.mp hval
  have h1' : (1:Int) ≤ (n:Int) := by exact_mod_cast h1
  have hmono : (1:Int) * (m.units + 1) ≤ (n:Int) * (m.units + 1) :=
    mul_le_mul_of_nonneg_right h1' (by omega)
  have hmu_ub : m.units + 2 < 9223372036854775808 := by omega
  have h64 : In64 m.units := ⟨by omega, by omega⟩
  have hmin : m.units ≠ -9223372036854775808 := by omega
  obtain ⟨hnegval, hnu, hnn, hncc⟩ := negate_valid hval h64 hmin
  rcases Nat.lt_or_ge n 2 with h2 | h2
  · have hn1' : n = 1 := by omega
    subst hn1'
    refine ⟨Negate m, rfl, ?_⟩
    simp only [toNanos, hnu, hnn]
    push_cast
    ring
  · have hc2 : ((n - 2 : Nat) : Int) = (n : Int) - 2 := by
      push_cast [Nat.cast_sub h2]
      ring
    have hfirst : Sum (Negate m) m = .ok ⟨0, 0, m.currencyCode⟩ :=
      sum_negate_left m hval h64 hmin
    have hmono2 : ((n:Int) - 2) * (m.units + 1) ≤ (n:Int) * (m.units + 1) :=
      mul_le_mul_of_nonneg_right (by omega) (by omega)
    obtain ⟨res, hres, hresval⟩ := iterSum_pos m hval hu hn (n - 2) ⟨0, 0, m.currencyCode⟩
      (isValid_iff.mpr (by dsimp only; omega)) rfl (by dsimp only; omega)
      (by dsimp only; omega) (by dsimp only; rw [hc2]; omega)
    refine ⟨res, ?_, ?_⟩
    · unfold DivideInt
      have hsplit : n - 1 = (n - 2) + 1 := by omega
      rw [hsplit]
      simp only [iterSum]
      rw [hfirst]
      exact hres
    · rw [hresval, hc2]
      simp only [toNanos]
      ring_nf

/-- Witness for the amended C4 at `m = {1, 0, "USD"}`, `n = 3`: the
result value is `(3-2)·m = m`. -/
theorem C4_divide_int_amended_witness :
    IsValid ⟨1, 0, "USD"⟩ = true ∧ (1:Int) ≤ 1 ∧ (0:Int) ≤ 0 ∧ (1:Nat) ≤ 3 ∧
      ((3:Nat) : Int) * ((1:Int) + 1) + 1 < 9223372036854775808 ∧
      ∃ res, DivideInt ⟨1, 0, "USD"⟩ 3 = some res ∧
        toNanos res = (((3:Nat) : Int) - 2) * toNanos ⟨1, 0, "USD"⟩ :=
  ⟨by decide, by decide, by decide, by decide, by decide,
    C4_divide_int_amended ⟨1, 0, "USD"⟩ 3 (by decide) (by decide) (by decide) (by decide)
      (by decide)⟩

/-- Claim C7: the fast-path conversions use exactly the spec's fixed
scale factors.  The encode step is `units*100 + nanos/10_000_000`
(truncating) as computed in `int64` — exactly the spec formula up to the
final 64-bit wrap, and literally equal to it whenever
`|units| ≤ 2^56`; the decode step equals the spec formula
`(scaled/10_000, (scaled mod 10_000)*100_000)` for every `int64` input
(the `int32` conversions never actually wrap); and `ToInt` is exactly
the encode step applied to the value's fields. -/
theorem C7_fast_scale_factors :
    (∀ units nanos : Int, In32 nanos →
      unitsAndNanoPartToMicros units nanos = wrap64 (scaledOfSpec units nanos)) ∧
    (∀ units nanos : Int, -72057594037927936 ≤ units → units ≤ 72057594037927936 →
      In32 nanos → unitsAndNanoPartToMicros units nanos = scaledOfSpec units nanos) ∧
    (∀ micros : Int, microsToUnitsAndNanoPart micros = unscaledOfSpec micros) ∧
    (∀ m : Money, ToInt m = unitsAndNanoPartToMicros m.units m.nanos) := by
  have key : ∀ units nanos : Int, In32 nanos →
      unitsAndNanoPartToMicros units nanos = wrap64 (scaledOfSpec units nanos) := by
    intro u nn h32
    obtain ⟨h32a, h32b⟩ := h32
    obtain ⟨hdm, hm1, hm2, hm3, hm4⟩ := tdivmod_facts nn 10000000 (by norm_num)
    have hq : wrap32 (nn.tdiv 10000000) = nn.tdiv 10000000 :=
      wrap32_eq_self (by omega) (by omega)
    unfold unitsAndNanoPartToMicros scaledOfSpec
    rw [hq, wrap64_absorb_left]
  refine ⟨key, ?_, ?_, fun m => rfl⟩
  · intro u nn hl hu h32
    rw [key u nn h32]
    obtain ⟨h32a, h32b⟩ := h32
    obtain ⟨hdm, hm1, hm2, hm3, hm4⟩ := tdivmod_facts nn 10000000 (by norm_num)
    unfold scaledOfSpec
    exact wrap64_eq_self (by omega) (by omega)
  · intro micros
    obtain ⟨hdm, hm1, hm2, hm3, hm4⟩ := tdivmod_facts micros 10000 (by norm_num)
    unfold microsToUnitsAndNanoPart unscaledOfSpec
    have h1 : wrap32 (micros.tmod 10000) = micros.tmod 10000 :=
      wrap32_eq_self (by omega) (by omega)
    rw [h1]
    have h2 : wrap32 (micros.tmod 10000 * 100000) = micros.tmod 10000 * 100000 :=
      wrap32_eq_self (by omega) (by omega)
    rw [h2]

/-- Witness for C7 at the spec's example scale: `{5, 910000000}`
encodes to `591`, and `591` decodes through the spec formulas. -/
theorem C7_fast_scale_factors_witness :
    In32 (910000000 : Int) ∧
      unitsAndNanoPartToMicros 5 910000000 = scaledOfSpec 5 910000000 ∧
      microsToUnitsAndNanoPart 591 = unscaledOfSpec 591 ∧
      ToInt ⟨5, 910000000, "USD"⟩ = unitsAndNanoPartToMicros 5 910000000 :=
  ⟨by decide,
    C7_fast_scale_factors.2.1 5 910000000 (by decide) (by decide) (by decide),
    C7_fast_scale_factors.2.2.1 591,
    C7_fast_scale_factors.2.2.2 ⟨5, 910000000, "USD"⟩⟩

end PbMoney
